import Mathlib

/-!
Verification of the u-root kexec ARM64 image loader model and the brctl
sysfs helpers.

Bytes are modelled as natural numbers (each byte < 256 where produced by
the encoders), byte blobs as lists of naturals, and physical addresses as
naturals.  Machine 64-bit conversions are made explicit with `% 2 ^ 64`
where the Go code converts to `uint64`.
-/

set_option maxRecDepth 4096

/-- Little-endian byte encoding of the low `k` bytes of `v`, following the
layout written by Go `binary.LittleEndian.PutUint64` (least significant
byte first). -/
def leBytes : Nat → Nat → List Nat
  | 0, _ => []
  | k + 1, v => v % 256 :: leBytes k (v / 256)

/-- Little-endian encoding of a 64-bit value as 8 bytes. -/
def le64 (v : Nat) : List Nat := leBytes 8 v

/-- Decode a little-endian byte list back into a natural number. -/
def leDec (l : List Nat) : Nat := l.foldr (fun b acc => b + 256 * acc) 0

/-- Big-endian byte encoding of the low `k` bytes of `v`, the layout used
by the device-tree library for `PropertyU64` (most significant byte
first). -/
def beBytes : Nat → Nat → List Nat
  | 0, _ => []
  | k + 1, v => beBytes k (v / 256) ++ [v % 256]

/-- Big-endian encoding of a 64-bit value as 8 bytes. -/
def be64 (v : Nat) : List Nat := beBytes 8 v

/-- Decode a big-endian byte list back into a natural number. -/
def beDec (l : List Nat) : Nat := l.foldl (fun acc b => acc * 256 + b) 0

/-!
Boot-stub synthesizer (`trampoline` in the source).  The Go function
builds a 40-byte template and patches two 8-byte little-endian values at
offsets 24 and 32 with `binary.LittleEndian.PutUint64`.
-/

/-- The 40-byte template literal of the `trampoline` function, copied from
the source byte for byte. -/
def trampolineTemplate : List Nat :=
  [0xc4, 0x00, 0x00, 0x58,
   0xe0, 0x00, 0x00, 0x58,
   0xe1, 0x03, 0x1f, 0xaa,
   0xe2, 0x03, 0x1f, 0xaa,
   0xe3, 0x03, 0x1f, 0xaa,
   0x80, 0x00, 0x1f, 0xd6,
   0x00, 0x00, 0x20, 0x00, 0x00, 0x00, 0x00, 0x00,
   0x00, 0x00, 0x10, 0x00, 0x00, 0x00, 0x00, 0x00]

/-- Write the 8 little-endian bytes of `v` into `l` starting at byte
offset `off`, as Go `binary.LittleEndian.PutUint64(l[off:], v)` does. -/
def putUint64LE (l : List Nat) (off : Nat) (v : Nat) : List Nat :=
  l.take off ++ le64 v ++ l.drop (off + 8)

/-- The boot-stub synthesizer from the source: patch the kernel entry
address at offset 24 and the device-tree base at offset 32 of the fixed
template. -/
def trampoline (kernelEntry dtbBase : Nat) : List Nat :=
  putUint64LE (putUint64LE trampolineTemplate 24 kernelEntry) 32 dtbBase

/-- The fixed 24-byte instruction prologue of the boot stub: the template
bytes before the two patched addresses. -/
def stubPrologue : List Nat :=
  [0xc4, 0x00, 0x00, 0x58,
   0xe0, 0x00, 0x00, 0x58,
   0xe1, 0x03, 0x1f, 0xaa,
   0xe2, 0x03, 0x1f, 0xaa,
   0xe3, 0x03, 0x1f, 0xaa,
   0x80, 0x00, 0x1f, 0xd6]

/-!
Memory-map and segment data model, following the `kexec` package types
used by the test (`kexec.Range`, `kexec.TypedRange`, `kexec.MemoryMap`,
`kexec.Segment`) as described by the specification.
-/

/-- A physical address range: start address and byte length. -/
structure MemRange where
  start : Nat
  size : Nat
deriving DecidableEq, Repr

/-- The kind tag of a typed memory range. -/
inductive RangeType where
  | RAM
  | Reserved
  | Other
deriving DecidableEq, Repr

/-- A typed physical address range of the memory map. -/
structure TypedRange where
  range : MemRange
  kind : RangeType
deriving DecidableEq, Repr

/-- A memory map is an ordered sequence of typed ranges. -/
abbrev MemoryMap := List TypedRange

/-- A segment: a byte blob bound to a physical address range. -/
structure Segment where
  buf : List Nat
  phys : MemRange
deriving DecidableEq, Repr

/-- The result of a successful load: resume address and segment list. -/
structure LoadResult where
  entry : Nat
  segments : List Segment
deriving DecidableEq, Repr

/-- Error kinds of the loader. -/
inductive LoadError where
  | insufficientMemory
  | internalLayoutViolation
deriving DecidableEq, Repr

/-- Round `n` up to the next multiple of `a` (identity when `a = 0`). -/
def alignUp (n a : Nat) : Nat :=
  if a = 0 then n else (n + a - 1) / a * a

/-- Two ranges do not overlap: one ends at or before the other starts. -/
def rangeDisjoint (r1 r2 : MemRange) : Bool :=
  decide (r1.start + r1.size ≤ r2.start) || decide (r2.start + r2.size ≤ r1.start)

/-- Range `inner` lies entirely inside range `outer`. -/
def rangeContains (outer inner : MemRange) : Bool :=
  decide (outer.start ≤ inner.start) &&
  decide (inner.start + inner.size ≤ outer.start + outer.size)

/-- All pairs of segments in the list have disjoint target ranges. -/
def pairwiseDisjoint : List Segment → Bool
  | [] => true
  | s :: rest => rest.all (fun t => rangeDisjoint s.phys t.phys) && pairwiseDisjoint rest

/-- The segment target range lies inside some RAM-kind range of the map. -/
def segmentInRAM (mm : MemoryMap) (s : Segment) : Bool :=
  mm.any (fun t => decide (t.kind = RangeType.RAM) && rangeContains t.range s.phys)

/-- A typed range qualifies for placement: it is RAM-kind and still holds
`minSize` bytes after rounding its start up to `align`. -/
def regionFits (tr : TypedRange) (minSize align : Nat) : Bool :=
  decide (tr.kind = RangeType.RAM) &&
  decide (alignUp tr.range.start align + minSize ≤ tr.range.start + tr.range.size)

/-- Of two typed ranges, keep the one with the lower start address. -/
def pickLower (a b : TypedRange) : TypedRange :=
  if b.range.start < a.range.start then b else a

/-- Modelled from the spec: the memory-map region query
(`MemoryMap.find_region` of section 4.1; the concrete Go implementation
is not among the provided sources).  Scans RAM-kind ranges and returns
the lowest-addressed one whose size, after rounding its start up to
`align`, still holds `minSize` bytes; `none` when no range qualifies. -/
def findRegion (mm : MemoryMap) (minSize align : Nat) : Option TypedRange :=
  mm.foldl
    (fun acc tr =>
      if regionFits tr minSize align then
        match acc with
        | none => some tr
        | some best => some (pickLower best tr)
      else acc)
    none

/-!
Boot-metadata (device-tree) model.  The real tree codec is an external
collaborator that the specification treats as opaque and assumed
correct; only the chosen-node properties matter to the loader, so the
tree is modelled by the property list of its chosen node together with
an executable, invertible serializer standing in for the codec.
-/

/-- A named device-tree property: a name and a raw byte value. -/
structure FdtProp where
  name : String
  value : List Nat
deriving DecidableEq, Repr

/-- Modelled from the spec: the firmware-description tree, reduced to the
property list of its chosen node (the only part this core reads or
writes; the surrounding tree-codec library is out of scope). -/
structure Fdt where
  chosenProps : List FdtProp
deriving DecidableEq, Repr

/-- A 64-bit property, stored as 8 big-endian bytes as the device-tree
library `PropertyU64` does. -/
def propertyU64 (name : String) (v : Nat) : FdtProp :=
  ⟨name, be64 v⟩

/-- Encode one property: length-prefixed name code points, then the
length-prefixed value bytes. -/
def encodeProp (p : FdtProp) : List Nat :=
  p.name.data.length :: p.name.data.map Char.toNat ++ (p.value.length :: p.value)

/-- Decode one property from the front of a byte list, returning the
property and the remaining bytes. -/
def decodeProp : List Nat → Option (FdtProp × List Nat)
  | [] => none
  | n :: rest =>
    if n < rest.length then
      let nameCodes := rest.take n
      let m := (rest.drop n).headD 0
      let rest2 := (rest.drop n).tail
      if m ≤ rest2.length then
        some (⟨String.mk (nameCodes.map Char.ofNat), rest2.take m⟩, rest2.drop m)
      else none
    else none

/-- Decode `k` consecutive properties. -/
def decodeProps : Nat → List Nat → Option (List FdtProp × List Nat)
  | 0, rest => some ([], rest)
  | k + 1, rest =>
    (decodeProp rest).bind fun pr =>
      (decodeProps k pr.2).bind fun psr =>
        some (pr.1 :: psr.1, psr.2)

/-- Modelled from the spec: serialization of the tree to bytes (the
external codec `fdt.Write`); a count-prefixed concatenation of the
encoded chosen-node properties. -/
def serializeFdt (t : Fdt) : List Nat :=
  t.chosenProps.length :: (t.chosenProps.map encodeProp).flatten

/-- Modelled from the spec: deserialization of the metadata bytes back
into the tree model, inverse of `serializeFdt`. -/
def deserializeFdt (b : List Nat) : Option Fdt :=
  match b with
  | [] => none
  | n :: rest =>
    match decodeProps n rest with
    | some (ps, []) => some ⟨ps⟩
    | _ => none

/-!
The image loader.  The Go function `kexecLoadImageMM` is exercised by the
test in the sources but its body is not among the provided files, so the
orchestration below is modelled from the specification (section 4.2):
region selection, fixed placement offsets, metadata augmentation, stub
synthesis, assembly and the defensive layout re-check.  Streams are
modelled by the byte lists they deliver, so stream read errors do not
arise; the full tree and the options value are consumed only by metadata
construction, which is modelled at the chosen-node level.
-/

/-- Metadata and boot-stub blobs each occupy one 4 KiB page. -/
def pageSize : Nat := 0x1000

/-- Architecture-defined gap between the region base and the kernel
image (1 MiB). -/
def kernelHeaderOffset : Nat := 0x100000

/-- Property names of the secondary-image range on the chosen node. -/
def initrdStartName : String := "linux,initrd-start"

/-- Property name of the secondary-image range end on the chosen node. -/
def initrdEndName : String := "linux,initrd-end"

/-- Property name that carries the kernel command line. -/
def bootargsName : String := "bootargs"

/-- Drop any existing secondary-image range properties from the chosen
node. -/
def cleanChosen (chosen : List FdtProp) : List FdtProp :=
  chosen.filter (fun p => !(p.name == initrdStartName || p.name == initrdEndName))

/-- Add the secondary-image range properties when a secondary image was
placed. -/
def withSecondaryProps (props : List FdtProp) : Option MemRange → List FdtProp
  | none => props
  | some r =>
    props ++ [propertyU64 initrdStartName r.start,
              propertyU64 initrdEndName (r.start + r.size)]

/-- Merge a non-empty command line into the designated property. -/
def mergeCmdline (props : List FdtProp) (cmdline : String) : List FdtProp :=
  if cmdline = "" then props
  else props.filter (fun p => !(p.name == bootargsName)) ++
    [⟨bootargsName, cmdline.data.map Char.toNat ++ [0]⟩]

/-- Modelled from the spec: boot-metadata augmentation (section 4.4, the
Go side calls into the `dt` library; that code is not among the provided
files).  Works on a copy of the chosen-node properties: any existing
secondary-image range properties are dropped, fresh ones are added
exactly when a secondary image was placed, and a non-empty command line
is merged into the designated property. -/
def augmentChosen (chosen : List FdtProp) (secondary : Option MemRange)
    (cmdline : String) : List FdtProp :=
  mergeCmdline (withSecondaryProps (cleanChosen chosen) secondary) cmdline

/-- Byte size the loader requests from the region query: the kernel
image, the two fixed pages, the kernel header offset and the page-rounded
secondary image. -/
def loadMinSize (kernel : List Nat) (ramfs : Option (List Nat)) : Nat :=
  kernel.length + 2 * pageSize + kernelHeaderOffset +
    (match ramfs with
     | none => 0
     | some r => alignUp r.length pageSize)

/-- The segment list assembled for region `tr`, in ascending address
order: metadata page, boot-stub page, kernel, optional secondary image. -/
def loadSegments (tr : TypedRange) (kernel : List Nat) (ramfs : Option (List Nat))
    (chosen : List FdtProp) (cmdline : String) : List Segment :=
  let base := alignUp tr.range.start pageSize
  let secRange : Option MemRange :=
    ramfs.map (fun r =>
      ⟨alignUp (base + kernelHeaderOffset + kernel.length) pageSize, r.length⟩)
  let fdtBlob := serializeFdt ⟨augmentChosen chosen secRange cmdline⟩
  ⟨fdtBlob, ⟨base, pageSize⟩⟩ ::
    ⟨trampoline (base + kernelHeaderOffset) base, ⟨base + pageSize, pageSize⟩⟩ ::
    ⟨kernel, ⟨base + kernelHeaderOffset, kernel.length⟩⟩ ::
    (match ramfs with
     | none => []
     | some r =>
       [⟨r, ⟨alignUp (base + kernelHeaderOffset + kernel.length) pageSize, r.length⟩⟩])

/-- Defensive layout re-check of the assembled segments: pairwise
disjoint target ranges, all contained in the selected region. -/
def layoutOk (tr : TypedRange) (segs : List Segment) : Bool :=
  pairwiseDisjoint segs && segs.all (fun s => rangeContains tr.range s.phys)

/-- Modelled from the spec: the image loader `kexecLoadImageMM` (its Go
body is not among the provided files; the algorithm follows section 4.2
of the specification step by step). -/
def kexecLoadImageMM (mm : MemoryMap) (kernel : List Nat)
    (ramfs : Option (List Nat)) (chosen : List FdtProp) (cmdline : String) :
    Except LoadError LoadResult :=
  match findRegion mm (loadMinSize kernel ramfs) pageSize with
  | none => Except.error LoadError.insufficientMemory
  | some tr =>
    let segs := loadSegments tr kernel ramfs chosen cmdline
    if layoutOk tr segs then
      Except.ok ⟨alignUp tr.range.start pageSize + pageSize, segs⟩
    else Except.error LoadError.internalLayoutViolation

/-- The segment at position `i` of a segment list (dummy segment when out
of range). -/
def segAt (segs : List Segment) (i : Nat) : Segment :=
  (segs.drop i).headD ⟨[], ⟨0, 0⟩⟩

/-- All ranges of the memory map fit in the 64-bit physical address
space, as Go `uintptr`/`uint` arithmetic guarantees on 64-bit targets. -/
def mmBounded (mm : MemoryMap) : Bool :=
  mm.all (fun t => decide (t.range.start + t.range.size ≤ 2 ^ 64))

/-- Witness memory map: one RAM range of two megabytes at address 0. -/
def mmW : MemoryMap := [⟨⟨0, 0x200000⟩, RangeType.RAM⟩]

/-- Witness kernel blob of three bytes. -/
def kernelW : List Nat := [1, 2, 3]

/-- Witness ramfs blob of two bytes. -/
def ramfsW : List Nat := [7, 8]

/-- The load result of the witness scenario without a secondary image. -/
def resW : LoadResult :=
  ⟨0x1000, loadSegments ⟨⟨0, 0x200000⟩, RangeType.RAM⟩ kernelW none [] ""⟩

/-- The load result of the witness scenario with a secondary image. -/
def resW2 : LoadResult :=
  ⟨0x1000, loadSegments ⟨⟨0, 0x200000⟩, RangeType.RAM⟩ kernelW (some ramfsW) [] ""⟩

/-!
The brctl sysfs helpers from `pkg/brctl/util.go`.  The sysfs write
`os.WriteFile` is modelled by a function from the path and the written
bytes to a result, supplied as an argument; the helpers build the same
paths and contents as the Go code.
-/

/-- Sysfs mount prefix used by the brctl helpers. -/
def BRCTL_SYS_NET : String := "/sys/class/net/"

/-- Newline byte appended to sysfs values. -/
def BRCTL_SYS_SUFFIX : Nat := 0x0a

/-- Outcome of writing bytes to a sysfs path. -/
abbrev SysfsWrite := String → List Nat → Except String Unit

/-- Set a value of the bridge itself; a failed write is returned to the
caller. -/
def setBridgeValue (fs : SysfsWrite) (bridge name : String) (value : List Nat)
    (_ : Nat) : Except String Unit :=
  match fs (BRCTL_SYS_NET ++ bridge ++ "/bridge/" ++ name)
      (value ++ [BRCTL_SYS_SUFFIX]) with
  | Except.error e => Except.error e
  | Except.ok _ => Except.ok ()

/-- Set a value of a port in a bridge; a failed write is only logged and
nil is returned. -/
def setBridgePort (fs : SysfsWrite) (bridge iface name : String) (value : Nat)
    (_ : Nat) : Except String Unit :=
  match fs (BRCTL_SYS_NET ++ iface ++ "/brport/" ++ bridge ++ "/" ++ name)
      ((toString value).data.map Char.toNat) with
  | Except.error _ => Except.ok ()
  | Except.ok _ => Except.ok ()

/-- Set a brport value of a port; a failed write is returned to the
caller. -/
def setPortBrportValue (fs : SysfsWrite) (port name : String)
    (value : List Nat) : Except String Unit :=
  match fs (BRCTL_SYS_NET ++ port ++ "/brport/" ++ name)
      (value ++ [BRCTL_SYS_SUFFIX]) with
  | Except.error e => Except.error e
  | Except.ok _ => Except.ok ()

theorem leBytes_length (k v : Nat) : (leBytes k v).length = k := by
  induction k generalizing v with
  | zero => rfl
  | succ k ih => simp [leBytes, ih]

theorem beBytes_length (k v : Nat) : (beBytes k v).length = k := by
  induction k generalizing v with
  | zero => rfl
  | succ k ih => simp [beBytes, ih]

theorem leDec_leBytes (k v : Nat) : leDec (leBytes k v) = v % 256 ^ k := by
  induction k generalizing v with
  | zero => simp [leBytes, leDec, Nat.mod_one]
  | succ k ih =>
    have h : leDec (leBytes (k + 1) v) = v % 256 + 256 * leDec (leBytes k (v / 256)) := by
      simp [leBytes, leDec]
    rw [h, ih, pow_succ, mul_comm (256 ^ k) 256, Nat.mod_mul]

theorem leDec_le64 (v : Nat) : leDec (le64 v) = v % 2 ^ 64 := by
  have h : (256 : Nat) ^ 8 = 2 ^ 64 := by norm_num
  rw [le64, leDec_leBytes, h]

theorem beDec_append (l : List Nat) (b : Nat) :
    beDec (l ++ [b]) = beDec l * 256 + b := by
  simp [beDec, List.foldl_append]

theorem beDec_beBytes (k v : Nat) : beDec (beBytes k v) = v % 256 ^ k := by
  induction k generalizing v with
  | zero => simp [beBytes, beDec, Nat.mod_one]
  | succ k ih =>
    rw [beBytes, beDec_append, ih]
    have h : v % 256 ^ (k + 1) = v % 256 + 256 * (v / 256 % 256 ^ k) := by
      rw [pow_succ, mul_comm (256 ^ k) 256]
      exact Nat.mod_mul
    rw [h]
    ring

theorem beDec_be64 (v : Nat) : beDec (be64 v) = v % 2 ^ 64 := by
  have h : (256 : Nat) ^ 8 = 2 ^ 64 := by norm_num
  rw [be64, beDec_beBytes, h]

theorem trampoline_eq (kernelEntry dtbBase : Nat) :
    trampoline kernelEntry dtbBase = stubPrologue ++ le64 kernelEntry ++ le64 dtbBase := rfl

theorem alignUp_ge (n a : Nat) : n ≤ alignUp n a := by
  unfold alignUp
  split
  · exact Nat.le_refl n
  · rename_i ha
    have hpos : 0 < a := Nat.pos_of_ne_zero ha
    have hdm := Nat.div_add_mod (n + a - 1) a
    have hlt : (n + a - 1) % a < a := Nat.mod_lt _ hpos
    have hcomm : a * ((n + a - 1) / a) = (n + a - 1) / a * a := Nat.mul_comm _ _
    omega

theorem alignUp_lt_add (n a : Nat) (ha : 0 < a) : alignUp n a < n + a := by
  unfold alignUp
  have hne : a ≠ 0 := Nat.pos_iff_ne_zero.mp ha
  simp only [hne, if_false]
  have hdm := Nat.div_add_mod (n + a - 1) a
  have hlt : (n + a - 1) % a < a := Nat.mod_lt _ ha
  have hcomm : a * ((n + a - 1) / a) = (n + a - 1) / a * a := Nat.mul_comm _ _
  omega

theorem findRegion_fold_spec (minSize align : Nat) (S : TypedRange → Prop) :
    ∀ (mm : List TypedRange) (acc : Option TypedRange),
      (∀ t, acc = some t → regionFits t minSize align = true ∧ S t) →
      (∀ t, t ∈ mm → S t) →
      ∀ tr,
        mm.foldl
          (fun acc tr =>
            if regionFits tr minSize align then
              match acc with
              | none => some tr
              | some best => some (pickLower best tr)
            else acc)
          acc = some tr →
        regionFits tr minSize align = true ∧ S tr := by
  intro mm
  induction mm with
  | nil =>
    intro acc hacc _ tr htr
    exact hacc tr htr
  | cons hd tl ih =>
    intro acc hacc hmem tr htr
    simp only [List.foldl_cons] at htr
    refine ih _ ?_ (fun t ht => hmem t (List.mem_cons_of_mem hd ht)) tr htr
    intro t ht
    by_cases hfit : regionFits hd minSize align = true
    · rw [if_pos hfit] at ht
      cases acc with
      | none =>
        have htt : some hd = some t := ht
        injection htt with htt
        subst htt
        exact ⟨hfit, hmem hd (List.mem_cons_self hd tl)⟩
      | some best =>
        have htt : some (pickLower best hd) = some t := ht
        injection htt with htt
        subst htt
        unfold pickLower
        split
        · exact ⟨hfit, hmem hd (List.mem_cons_self hd tl)⟩
        · exact hacc best rfl
    · rw [if_neg hfit] at ht
      exact hacc t ht

theorem findRegion_spec (mm : MemoryMap) (minSize align : Nat) (tr : TypedRange)
    (h : findRegion mm minSize align = some tr) :
    tr ∈ mm ∧ regionFits tr minSize align = true := by
  have := findRegion_fold_spec minSize align (fun t => t ∈ mm) mm none
    (fun t ht => by cases ht) (fun t ht => ht) tr h
  exact ⟨this.2, this.1⟩

theorem decodeProp_encode (p : FdtProp) (rest : List Nat) :
    decodeProp (encodeProp p ++ rest) = some (p, rest) := by
  have hEnc : encodeProp p ++ rest =
      p.name.data.length ::
        (p.name.data.map Char.toNat ++ (p.value.length :: (p.value ++ rest))) := by
    simp [encodeProp]
  rw [hEnc]
  simp only [decodeProp]
  have hname : (p.name.data.map Char.toNat).length = p.name.data.length := List.length_map _ _
  have hlen : p.name.data.length <
      (p.name.data.map Char.toNat ++ (p.value.length :: (p.value ++ rest))).length := by
    simp only [List.length_append, List.length_cons, List.length_map]
    omega
  rw [if_pos hlen]
  have hdrop : (p.name.data.map Char.toNat ++ (p.value.length :: (p.value ++ rest))).drop
      p.name.data.length = p.value.length :: (p.value ++ rest) := by
    rw [← hname]
    exact List.drop_left _ _
  have htake : (p.name.data.map Char.toNat ++ (p.value.length :: (p.value ++ rest))).take
      p.name.data.length = p.name.data.map Char.toNat := by
    rw [← hname]
    exact List.take_left _ _
  rw [hdrop, htake]
  simp only [List.headD_cons, List.tail_cons]
  have hvlen : p.value.length ≤ (p.value ++ rest).length := by simp
  rw [if_pos hvlen]
  have hvtake : (p.value ++ rest).take p.value.length = p.value := List.take_left _ _
  have hvdrop : (p.value ++ rest).drop p.value.length = rest := List.drop_left _ _
  rw [hvtake, hvdrop]
  have hmk : String.mk ((p.name.data.map Char.toNat).map Char.ofNat) = p.name := by
    rw [List.map_map]
    have hid : (Char.ofNat ∘ Char.toNat) = id := by
      funext c
      exact Char.ofNat_toNat c
    rw [hid, List.map_id]
  rw [hmk]

theorem decodeProps_encode (ps : List FdtProp) (rest : List Nat) :
    decodeProps ps.length ((ps.map encodeProp).flatten ++ rest) = some (ps, rest) := by
  induction ps generalizing rest with
  | nil => simp [decodeProps]
  | cons p ps ih =>
    simp only [List.map_cons, List.flatten_cons, List.length_cons, List.append_assoc]
    unfold decodeProps
    rw [decodeProp_encode]
    simp only [Option.some_bind]
    rw [ih]
    simp only [Option.some_bind]

theorem deserializeFdt_serializeFdt (t : Fdt) :
    deserializeFdt (serializeFdt t) = some t := by
  unfold serializeFdt deserializeFdt
  have h := decodeProps_encode t.chosenProps []
  rw [List.append_nil] at h
  simp only [h]

theorem load_ok_struct (mm : MemoryMap) (kernel : List Nat)
    (ramfs : Option (List Nat)) (chosen : List FdtProp) (cmdline : String)
    (res : LoadResult)
    (h : kexecLoadImageMM mm kernel ramfs chosen cmdline = Except.ok res) :
    ∃ tr, findRegion mm (loadMinSize kernel ramfs) pageSize = some tr ∧
      layoutOk tr (loadSegments tr kernel ramfs chosen cmdline) = true ∧
      res = ⟨alignUp tr.range.start pageSize + pageSize,
             loadSegments tr kernel ramfs chosen cmdline⟩ := by
  unfold kexecLoadImageMM at h
  cases hfr : findRegion mm (loadMinSize kernel ramfs) pageSize with
  | none =>
    rw [hfr] at h
    cases h
  | some tr =>
    rw [hfr] at h
    simp only at h
    by_cases hok : layoutOk tr (loadSegments tr kernel ramfs chosen cmdline) = true
    · rw [if_pos hok] at h
      injection h with h
      exact ⟨tr, rfl, hok, h.symm⟩
    · rw [if_neg hok] at h
      cases h

theorem le64_length (v : Nat) : (le64 v).length = 8 := leBytes_length 8 v

/-- C5: the boot-stub blob is the fixed 24-byte instruction prologue,
then the 8-byte little-endian kernel-entry address, then the 8-byte
little-endian metadata address, 40 bytes in total. -/
theorem trampoline_layout (kernelEntry dtbBase : Nat) :
    trampoline kernelEntry dtbBase = stubPrologue ++ le64 kernelEntry ++ le64 dtbBase ∧
    stubPrologue.length = 24 ∧
    (le64 kernelEntry).length = 8 ∧
    (le64 dtbBase).length = 8 ∧
    (trampoline kernelEntry dtbBase).length = 40 := by
  refine ⟨trampoline_eq kernelEntry dtbBase, rfl, le64_length _, le64_length _, ?_⟩
  rw [trampoline_eq]
  simp [le64_length, stubPrologue]

/-- C9: the trampoline is a total function returning exactly 40 bytes
whose first 24 bytes are a fixed constant independent of both inputs;
being a plain function of its two arguments, its output depends on
nothing else. -/
theorem trampoline_total_fixed_prologue (kernelEntry dtbBase : Nat) :
    (trampoline kernelEntry dtbBase).length = 40 ∧
    (trampoline kernelEntry dtbBase).take 24 = stubPrologue := by
  constructor
  · rw [trampoline_eq]
    simp [le64_length, stubPrologue]
  · rw [trampoline_eq, List.append_assoc]
    have h24 : (24 : Nat) = stubPrologue.length := rfl
    rw [h24]
    exact List.take_left _ _

/-- C1: every successful load result has pairwise non-overlapping
segment target ranges, each contained in some RAM-kind range of the
supplied memory map. -/
theorem load_segments_disjoint_in_ram (mm : MemoryMap) (kernel : List Nat)
    (ramfs : Option (List Nat)) (chosen : List FdtProp) (cmdline : String)
    (res : LoadResult)
    (h : kexecLoadImageMM mm kernel ramfs chosen cmdline = Except.ok res) :
    pairwiseDisjoint res.segments = true ∧
    res.segments.all (segmentInRAM mm) = true := by
  obtain ⟨tr, hfr, hok, hres⟩ := load_ok_struct mm kernel ramfs chosen cmdline res h
  obtain ⟨htrmem, hfit⟩ := findRegion_spec mm _ _ tr hfr
  rw [regionFits, Bool.and_eq_true, decide_eq_true_eq] at hfit
  obtain ⟨hram, _⟩ := hfit
  rw [layoutOk, Bool.and_eq_true] at hok
  obtain ⟨hdisj, hcont⟩ := hok
  subst hres
  refine ⟨hdisj, ?_⟩
  rw [List.all_eq_true] at hcont ⊢
  intro s hs
  rw [segmentInRAM, List.any_eq_true]
  refine ⟨tr, htrmem, ?_⟩
  rw [Bool.and_eq_true, decide_eq_true_eq]
  exact ⟨hram, hcont s hs⟩

theorem load_segments_disjoint_in_ram_witness :
    pairwiseDisjoint resW.segments = true ∧
    resW.segments.all (segmentInRAM mmW) = true :=
  load_segments_disjoint_in_ram mmW kernelW none [] "" resW (by rfl)

/-- C3: in every successful load result there are at least three
segments, the entry address is the start of the boot-stub segment
(position 1), and that start is the metadata segment start (position 0)
plus the page size. -/
theorem entry_is_stub_start (mm : MemoryMap) (kernel : List Nat)
    (ramfs : Option (List Nat)) (chosen : List FdtProp) (cmdline : String)
    (res : LoadResult)
    (h : kexecLoadImageMM mm kernel ramfs chosen cmdline = Except.ok res) :
    3 ≤ res.segments.length ∧
    res.entry = (segAt res.segments 1).phys.start ∧
    (segAt res.segments 1).phys.start = (segAt res.segments 0).phys.start + pageSize := by
  obtain ⟨tr, hfr, hok, hres⟩ := load_ok_struct mm kernel ramfs chosen cmdline res h
  subst hres
  refine ⟨?_, rfl, rfl⟩
  show 3 ≤ (loadSegments tr kernel ramfs chosen cmdline).length
  unfold loadSegments
  cases ramfs <;> simp

theorem entry_is_stub_start_witness :
    3 ≤ resW.segments.length ∧
    resW.entry = (segAt resW.segments 1).phys.start ∧
    (segAt resW.segments 1).phys.start = (segAt resW.segments 0).phys.start + pageSize :=
  entry_is_stub_start mmW kernelW none [] "" resW (by rfl)

theorem trampoline_slice_kernel (k d : Nat) :
    ((trampoline k d).drop 24).take 8 = le64 k := rfl

theorem trampoline_slice_dtb (k d : Nat) :
    ((trampoline k d).drop 32).take 8 = le64 d := rfl

theorem load_base_bound (mm : MemoryMap) (kernel : List Nat)
    (ramfs : Option (List Nat)) (tr : TypedRange)
    (hb : mmBounded mm = true)
    (hfr : findRegion mm (loadMinSize kernel ramfs) pageSize = some tr) :
    alignUp tr.range.start pageSize + loadMinSize kernel ramfs ≤ 2 ^ 64 := by
  obtain ⟨hmem, hfit⟩ := findRegion_spec mm _ _ tr hfr
  rw [regionFits, Bool.and_eq_true] at hfit
  simp only [decide_eq_true_eq] at hfit
  rw [mmBounded, List.all_eq_true] at hb
  have h2 := hb tr hmem
  rw [decide_eq_true_eq] at h2
  omega

theorem loadMinSize_ge (kernel : List Nat) (ramfs : Option (List Nat)) :
    kernelHeaderOffset + 2 * pageSize ≤ loadMinSize kernel ramfs := by
  unfold loadMinSize
  cases ramfs <;> simp <;> omega

theorem pageSize_pos : 0 < pageSize := by norm_num [pageSize]

/-- C4: in every successful load result, bytes 24..32 of the boot-stub
segment decode (little-endian) to the kernel segment start address and
bytes 32..40 decode to the metadata segment start address. -/
theorem stub_patched_addresses (mm : MemoryMap) (kernel : List Nat)
    (ramfs : Option (List Nat)) (chosen : List FdtProp) (cmdline : String)
    (res : LoadResult)
    (hb : mmBounded mm = true)
    (h : kexecLoadImageMM mm kernel ramfs chosen cmdline = Except.ok res) :
    leDec (((segAt res.segments 1).buf.drop 24).take 8) = (segAt res.segments 2).phys.start ∧
    leDec (((segAt res.segments 1).buf.drop 32).take 8) = (segAt res.segments 0).phys.start := by
  obtain ⟨tr, hfr, hok, hres⟩ := load_ok_struct mm kernel ramfs chosen cmdline res h
  have hbound := load_base_bound mm kernel ramfs tr hb hfr
  have hmin := loadMinSize_ge kernel ramfs
  have hps := pageSize_pos
  subst hres
  have hseg1 : segAt (loadSegments tr kernel ramfs chosen cmdline) 1 =
      ⟨trampoline (alignUp tr.range.start pageSize + kernelHeaderOffset)
          (alignUp tr.range.start pageSize),
        ⟨alignUp tr.range.start pageSize + pageSize, pageSize⟩⟩ := rfl
  have hseg2 : (segAt (loadSegments tr kernel ramfs chosen cmdline) 2).phys.start =
      alignUp tr.range.start pageSize + kernelHeaderOffset := rfl
  have hseg0 : (segAt (loadSegments tr kernel ramfs chosen cmdline) 0).phys.start =
      alignUp tr.range.start pageSize := rfl
  show leDec (((segAt (loadSegments tr kernel ramfs chosen cmdline) 1).buf.drop 24).take 8) =
      (segAt (loadSegments tr kernel ramfs chosen cmdline) 2).phys.start ∧
    leDec (((segAt (loadSegments tr kernel ramfs chosen cmdline) 1).buf.drop 32).take 8) =
      (segAt (loadSegments tr kernel ramfs chosen cmdline) 0).phys.start
  rw [hseg1, hseg2, hseg0]
  constructor
  · rw [show (⟨trampoline (alignUp tr.range.start pageSize + kernelHeaderOffset)
        (alignUp tr.range.start pageSize),
        ⟨alignUp tr.range.start pageSize + pageSize, pageSize⟩⟩ : Segment).buf =
        trampoline (alignUp tr.range.start pageSize + kernelHeaderOffset)
          (alignUp tr.range.start pageSize) from rfl]
    rw [trampoline_slice_kernel, leDec_le64]
    exact Nat.mod_eq_of_lt (by omega)
  · rw [show (⟨trampoline (alignUp tr.range.start pageSize + kernelHeaderOffset)
        (alignUp tr.range.start pageSize),
        ⟨alignUp tr.range.start pageSize + pageSize, pageSize⟩⟩ : Segment).buf =
        trampoline (alignUp tr.range.start pageSize + kernelHeaderOffset)
          (alignUp tr.range.start pageSize) from rfl]
    rw [trampoline_slice_dtb, leDec_le64]
    exact Nat.mod_eq_of_lt (by omega)

theorem stub_patched_addresses_witness :
    leDec (((segAt resW.segments 1).buf.drop 24).take 8) = (segAt resW.segments 2).phys.start ∧
    leDec (((segAt resW.segments 1).buf.drop 32).take 8) = (segAt resW.segments 0).phys.start :=
  stub_patched_addresses mmW kernelW none [] "" resW (by rfl) (by rfl)

/-- C2: with a single RAM range of the interval 0x100000 to 0x10100000, a
kernel blob of 0xA00000 bytes and no secondary image, the loader returns
exactly the three segments metadata page at 0x100000, boot stub at
0x101000, kernel at 0x200000 with size 0xA00000, and entry 0x101000. -/
theorem load_ok_of (mm : MemoryMap) (tr : TypedRange) (kernel : List Nat)
    (ramfs : Option (List Nat)) (chosen : List FdtProp) (cmdline : String)
    (hfr : findRegion mm (loadMinSize kernel ramfs) pageSize = some tr)
    (hlay : layoutOk tr (loadSegments tr kernel ramfs chosen cmdline) = true) :
    kexecLoadImageMM mm kernel ramfs chosen cmdline =
      Except.ok ⟨alignUp tr.range.start pageSize + pageSize,
        loadSegments tr kernel ramfs chosen cmdline⟩ := by
  unfold kexecLoadImageMM
  rw [hfr]
  simp only [hlay, if_true]

theorem load_scenario (kernel : List Nat) (chosen : List FdtProp) (cmdline : String)
    (hk : kernel.length = 0xA00000) :
    kexecLoadImageMM [⟨⟨0x100000, 0x10000000⟩, RangeType.RAM⟩] kernel none chosen cmdline =
      Except.ok ⟨0x101000,
        [⟨serializeFdt ⟨augmentChosen chosen none cmdline⟩, ⟨0x100000, 0x1000⟩⟩,
         ⟨trampoline 0x200000 0x100000, ⟨0x101000, 0x1000⟩⟩,
         ⟨kernel, ⟨0x200000, 0xA00000⟩⟩]⟩ := by
  have hmin : loadMinSize kernel none = 0xB02000 := by
    simp only [loadMinSize, hk]
    norm_num [pageSize, kernelHeaderOffset]
  have hsegs : loadSegments ⟨⟨0x100000, 0x10000000⟩, RangeType.RAM⟩ kernel none chosen cmdline =
      [⟨serializeFdt ⟨augmentChosen chosen none cmdline⟩, ⟨0x100000, 0x1000⟩⟩,
       ⟨trampoline 0x200000 0x100000, ⟨0x101000, 0x1000⟩⟩,
       ⟨kernel, ⟨0x200000, kernel.length⟩⟩] := rfl
  rw [hk] at hsegs
  have hfr : findRegion [⟨⟨0x100000, 0x10000000⟩, RangeType.RAM⟩]
      (loadMinSize kernel none) pageSize =
      some ⟨⟨0x100000, 0x10000000⟩, RangeType.RAM⟩ := by
    rw [hmin]
    rfl
  have hlay : layoutOk ⟨⟨0x100000, 0x10000000⟩, RangeType.RAM⟩
      (loadSegments ⟨⟨0x100000, 0x10000000⟩, RangeType.RAM⟩ kernel none chosen cmdline) = true := by
    rw [hsegs]
    norm_num [layoutOk, pairwiseDisjoint, rangeDisjoint, rangeContains]
  have h := load_ok_of [⟨⟨0x100000, 0x10000000⟩, RangeType.RAM⟩]
    ⟨⟨0x100000, 0x10000000⟩, RangeType.RAM⟩ kernel none chosen cmdline hfr hlay
  rw [h, hsegs]
  rfl

theorem load_scenario_witness :
    kexecLoadImageMM [⟨⟨0x100000, 0x10000000⟩, RangeType.RAM⟩]
        (List.replicate 0xA00000 0) none [] "" =
      Except.ok ⟨0x101000,
        [⟨serializeFdt ⟨augmentChosen [] none ""⟩, ⟨0x100000, 0x1000⟩⟩,
         ⟨trampoline 0x200000 0x100000, ⟨0x101000, 0x1000⟩⟩,
         ⟨List.replicate 0xA00000 0, ⟨0x200000, 0xA00000⟩⟩]⟩ :=
  load_scenario (List.replicate 0xA00000 0) [] "" (List.length_replicate 0xA00000 0)

theorem mergeCmdline_all (props : List FdtProp) (cmdline : String)
    (q : FdtProp → Bool) (hq : props.all q = true)
    (hb : q ⟨bootargsName, cmdline.data.map Char.toNat ++ [0]⟩ = true) :
    (mergeCmdline props cmdline).all q = true := by
  unfold mergeCmdline
  split
  · exact hq
  · rw [List.all_append, Bool.and_eq_true]
    constructor
    · rw [List.all_eq_true] at hq ⊢
      intro p hp
      exact hq p (List.mem_filter.mp hp).1
    · simp [hb]

theorem augment_none_no_initrd (chosen : List FdtProp) (cmdline : String) :
    (augmentChosen chosen none cmdline).all
      (fun p => !(p.name == initrdStartName || p.name == initrdEndName)) = true := by
  unfold augmentChosen withSecondaryProps
  apply mergeCmdline_all
  · rw [List.all_eq_true]
    intro p hp
    exact (List.mem_filter.mp hp).2
  · rfl

theorem filter_filter_of_imp (l : List FdtProp) (a b : FdtProp → Bool)
    (h : ∀ p, b p = true → a p = true) :
    (l.filter a).filter b = l.filter b := by
  induction l with
  | nil => rfl
  | cons p ps ih =>
    by_cases hb : b p = true
    · have ha := h p hb
      simp [List.filter_cons, ha, hb, ih]
    · by_cases ha : a p = true <;>
        simp [List.filter_cons, ha, hb, ih]

theorem filter_clean_nil (chosen : List FdtProp) :
    (cleanChosen chosen).filter
      (fun p => p.name == initrdStartName || p.name == initrdEndName) = [] := by
  unfold cleanChosen
  induction chosen with
  | nil => rfl
  | cons p ps ih =>
    rw [List.filter_cons]
    cases hq : (p.name == initrdStartName || p.name == initrdEndName) with
    | true =>
      simp only [Bool.not_true]
      rw [if_neg Bool.false_ne_true]
      exact ih
    | false =>
      simp only [Bool.not_false]
      rw [if_pos trivial, List.filter_cons, hq, if_neg Bool.false_ne_true]
      exact ih

theorem initrd_not_bootargs (p : FdtProp)
    (hp : (p.name == initrdStartName || p.name == initrdEndName) = true) :
    (!(p.name == bootargsName)) = true := by
  rw [Bool.or_eq_true] at hp
  rcases hp with h | h
  · have := eq_of_beq h
    rw [this]
    rfl
  · have := eq_of_beq h
    rw [this]
    rfl

theorem augment_some_filter (chosen : List FdtProp) (cmdline : String) (r : MemRange) :
    (augmentChosen chosen (some r) cmdline).filter
      (fun p => p.name == initrdStartName || p.name == initrdEndName) =
    [propertyU64 initrdStartName r.start,
     propertyU64 initrdEndName (r.start + r.size)] := by
  unfold augmentChosen withSecondaryProps mergeCmdline
  have hfil2 : ([propertyU64 initrdStartName r.start,
      propertyU64 initrdEndName (r.start + r.size)] : List FdtProp).filter
      (fun p => p.name == initrdStartName || p.name == initrdEndName) =
      [propertyU64 initrdStartName r.start,
       propertyU64 initrdEndName (r.start + r.size)] := by
    simp [List.filter_cons, propertyU64]
  split
  · rw [List.filter_append, filter_clean_nil, hfil2, List.nil_append]
  · rw [List.filter_append]
    have hboot : (([⟨bootargsName, cmdline.data.map Char.toNat ++ [0]⟩] : List FdtProp).filter
        (fun p => p.name == initrdStartName || p.name == initrdEndName)) = [] := by
      simp [List.filter_cons, initrdStartName, initrdEndName, bootargsName]
    rw [hboot, List.append_nil]
    rw [filter_filter_of_imp _ _ _ initrd_not_bootargs]
    rw [List.filter_append, filter_clean_nil, hfil2, List.nil_append]

/-- C6: for every successful load without a secondary image the metadata
bytes deserialize to a chosen node carrying no secondary-image start/end
properties, even when the input chosen node carried them; with a
secondary image, the chosen node carries exactly the two properties
matching the secondary segment physical range. -/
theorem metadata_initrd_props (mm : MemoryMap) (kernel : List Nat)
    (ramfs : Option (List Nat)) (chosen : List FdtProp) (cmdline : String)
    (res : LoadResult)
    (h : kexecLoadImageMM mm kernel ramfs chosen cmdline = Except.ok res) :
    (ramfs = none →
      (deserializeFdt (segAt res.segments 0).buf).isSome = true ∧
      ((deserializeFdt (segAt res.segments 0).buf).getD ⟨[]⟩).chosenProps.all
        (fun p => !(p.name == initrdStartName || p.name == initrdEndName)) = true) ∧
    (∀ r, ramfs = some r → mmBounded mm = true →
      ((deserializeFdt (segAt res.segments 0).buf).getD ⟨[]⟩).chosenProps.filter
        (fun p => p.name == initrdStartName || p.name == initrdEndName) =
        [propertyU64 initrdStartName (segAt res.segments 3).phys.start,
         propertyU64 initrdEndName
           ((segAt res.segments 3).phys.start + (segAt res.segments 3).phys.size)] ∧
      beDec (be64 (segAt res.segments 3).phys.start) = (segAt res.segments 3).phys.start ∧
      beDec (be64 ((segAt res.segments 3).phys.start + (segAt res.segments 3).phys.size)) =
        (segAt res.segments 3).phys.start + (segAt res.segments 3).phys.size) := by
  obtain ⟨tr, hfr, hok, hres⟩ := load_ok_struct mm kernel ramfs chosen cmdline res h
  constructor
  · intro hrn
    subst hrn
    subst hres
    have hbuf : (segAt (loadSegments tr kernel none chosen cmdline) 0).buf =
        serializeFdt ⟨augmentChosen chosen none cmdline⟩ := rfl
    rw [hbuf, deserializeFdt_serializeFdt]
    exact ⟨rfl, augment_none_no_initrd chosen cmdline⟩
  · intro r hrs hb
    subst hrs
    have hbound := load_base_bound mm kernel (some r) tr hb hfr
    subst hres
    have hbuf : (segAt (loadSegments tr kernel (some r) chosen cmdline) 0).buf =
        serializeFdt ⟨augmentChosen chosen
          (some ⟨alignUp (alignUp tr.range.start pageSize + kernelHeaderOffset +
            kernel.length) pageSize, r.length⟩) cmdline⟩ := rfl
    have hseg3 : segAt (loadSegments tr kernel (some r) chosen cmdline) 3 =
        ⟨r, ⟨alignUp (alignUp tr.range.start pageSize + kernelHeaderOffset +
          kernel.length) pageSize, r.length⟩⟩ := rfl
    rw [hbuf, hseg3, deserializeFdt_serializeFdt]
    have hstart : (⟨r, ⟨alignUp (alignUp tr.range.start pageSize + kernelHeaderOffset +
        kernel.length) pageSize, r.length⟩⟩ : Segment).phys.start =
        alignUp (alignUp tr.range.start pageSize + kernelHeaderOffset +
          kernel.length) pageSize := rfl
    have hsize : (⟨r, ⟨alignUp (alignUp tr.range.start pageSize + kernelHeaderOffset +
        kernel.length) pageSize, r.length⟩⟩ : Segment).phys.size = r.length := rfl
    rw [hstart, hsize]
    have hminEq : loadMinSize kernel (some r) =
        kernel.length + 2 * pageSize + kernelHeaderOffset + alignUp r.length pageSize := rfl
    rw [hminEq] at hbound
    have hS := alignUp_lt_add (alignUp tr.range.start pageSize + kernelHeaderOffset +
      kernel.length) pageSize pageSize_pos
    have hA := alignUp_ge r.length pageSize
    have hps := pageSize_pos
    refine ⟨?_, ?_, ?_⟩
    · exact augment_some_filter chosen cmdline _
    · rw [beDec_be64]
      exact Nat.mod_eq_of_lt (by omega)
    · rw [beDec_be64]
      exact Nat.mod_eq_of_lt (by omega)

theorem metadata_initrd_props_witness :
    ((deserializeFdt (segAt resW2.segments 0).buf).getD ⟨[]⟩).chosenProps.filter
      (fun p => p.name == initrdStartName || p.name == initrdEndName) =
      [propertyU64 initrdStartName (segAt resW2.segments 3).phys.start,
       propertyU64 initrdEndName
         ((segAt resW2.segments 3).phys.start + (segAt resW2.segments 3).phys.size)] ∧
    beDec (be64 (segAt resW2.segments 3).phys.start) = (segAt resW2.segments 3).phys.start ∧
    beDec (be64 ((segAt resW2.segments 3).phys.start + (segAt resW2.segments 3).phys.size)) =
      (segAt resW2.segments 3).phys.start + (segAt resW2.segments 3).phys.size :=
  (metadata_initrd_props mmW kernelW (some ramfsW) [] "" resW2 (by rfl)).2
    ramfsW rfl (by rfl)

/-- C7: when the only RAM-kind range of the memory map is smaller than
the kernel image plus the two fixed pages and the header offset, the
loader fails with the insufficient-memory error (an error result carries
no segments). -/
theorem insufficient_memory (mm : MemoryMap) (kernel : List Nat)
    (ramfs : Option (List Nat)) (chosen : List FdtProp) (cmdline : String)
    (tr : TypedRange)
    (hram : mm.filter (fun t => decide (t.kind = RangeType.RAM)) = [tr])
    (hsize : tr.range.size < kernel.length + 2 * pageSize + kernelHeaderOffset) :
    kexecLoadImageMM mm kernel ramfs chosen cmdline =
      Except.error LoadError.insufficientMemory := by
  cases hfr : findRegion mm (loadMinSize kernel ramfs) pageSize with
  | none => simp only [kexecLoadImageMM, hfr]
  | some tr2 =>
    exfalso
    obtain ⟨hmem, hfit⟩ := findRegion_spec mm _ _ tr2 hfr
    rw [regionFits, Bool.and_eq_true] at hfit
    simp only [decide_eq_true_eq] at hfit
    obtain ⟨hkind, hle⟩ := hfit
    have hmem2 : tr2 ∈ mm.filter (fun t => decide (t.kind = RangeType.RAM)) :=
      List.mem_filter.mpr ⟨hmem, by simp [hkind]⟩
    rw [hram, List.mem_singleton] at hmem2
    subst hmem2
    have hge := alignUp_ge tr2.range.start pageSize
    have hmin := loadMinSize_ge kernel ramfs
    have hmin2 : kernel.length + 2 * pageSize + kernelHeaderOffset ≤
        loadMinSize kernel ramfs := by
      unfold loadMinSize
      cases ramfs <;> simp
    omega

theorem insufficient_memory_witness :
    kexecLoadImageMM [⟨⟨0, 0x50000⟩, RangeType.RAM⟩] [] none [] "" =
      Except.error LoadError.insufficientMemory :=
  insufficient_memory [⟨⟨0, 0x50000⟩, RangeType.RAM⟩] [] none [] ""
    ⟨⟨0, 0x50000⟩, RangeType.RAM⟩ (by rfl)
    (by norm_num [pageSize, kernelHeaderOffset])

/-- C8: the loader is deterministic; two invocations on identical inputs
return the same result, the model being a pure function of its
arguments. -/
theorem load_deterministic (mm1 mm2 : MemoryMap) (kernel1 kernel2 : List Nat)
    (ramfs1 ramfs2 : Option (List Nat)) (chosen1 chosen2 : List FdtProp)
    (cmdline1 cmdline2 : String)
    (hmm : mm1 = mm2) (hk : kernel1 = kernel2) (hr : ramfs1 = ramfs2)
    (hc : chosen1 = chosen2) (hcl : cmdline1 = cmdline2) :
    kexecLoadImageMM mm1 kernel1 ramfs1 chosen1 cmdline1 =
      kexecLoadImageMM mm2 kernel2 ramfs2 chosen2 cmdline2 := by
  subst hmm
  subst hk
  subst hr
  subst hc
  subst hcl
  rfl

theorem load_deterministic_witness :
    kexecLoadImageMM mmW kernelW none [] "" = kexecLoadImageMM mmW kernelW none [] "" :=
  load_deterministic mmW mmW kernelW kernelW none none [] [] "" ""
    rfl rfl rfl rfl rfl

/-- C10: setBridgePort succeeds for every input, even when the
underlying sysfs write fails, while setBridgeValue and
setPortBrportValue surface the write result (in particular any write
error) to the caller. -/
theorem set_bridge_port_swallows_write_error :
    (∀ (fs : SysfsWrite) (bridge iface name : String) (value u : Nat),
      setBridgePort fs bridge iface name value u = Except.ok ()) ∧
    (∀ (fs : SysfsWrite) (bridge name : String) (value : List Nat) (u : Nat),
      setBridgeValue fs bridge name value u =
        fs (BRCTL_SYS_NET ++ bridge ++ "/bridge/" ++ name)
          (value ++ [BRCTL_SYS_SUFFIX])) ∧
    (∀ (fs : SysfsWrite) (port name : String) (value : List Nat),
      setPortBrportValue fs port name value =
        fs (BRCTL_SYS_NET ++ port ++ "/brport/" ++ name)
          (value ++ [BRCTL_SYS_SUFFIX])) := by
  refine ⟨?_, ?_, ?_⟩
  · intro fs bridge iface name value u
    unfold setBridgePort
    cases fs (BRCTL_SYS_NET ++ iface ++ "/brport/" ++ bridge ++ "/" ++ name)
        ((toString value).data.map Char.toNat) <;> rfl
  · intro fs bridge name value u
    unfold setBridgeValue
    cases fs (BRCTL_SYS_NET ++ bridge ++ "/bridge/" ++ name)
        (value ++ [BRCTL_SYS_SUFFIX]) <;> rfl
  · intro fs port name value
    unfold setPortBrportValue
    cases fs (BRCTL_SYS_NET ++ port ++ "/brport/" ++ name)
        (value ++ [BRCTL_SYS_SUFFIX]) <;> rfl
